import Mathlib

/-!
Verification development for the ROCm code-object subsystem of gdb
(gdb/solib-rocm.c): the URI descriptor parser, the two code-object stream
backends (target-file-backed and memory-snapshot-backed), the solib list
merger, and the refresh controller.

Strings are modelled as `List Char`; target-side facilities (file open,
fstat, memory reads) are oracles passed in explicitly.  Machine integers
are modelled as `Nat`, with explicit reduction modulo 2^64 at the one
place where the C++ code performs (wrapping) unsigned arithmetic.
-/

namespace RocmSolib

/-! ## Character helpers (std::isxdigit, std::tolower, hex value) -/

/-- Model of `std::isxdigit` (C locale). -/
def isxdigitChar (c : Char) : Bool :=
  ('0' ≤ c && c ≤ '9') || ('a' ≤ c && c ≤ 'f') || ('A' ≤ c && c ≤ 'F')

/-- Numeric value of a hexadecimal digit (meaningful when `isxdigitChar`). -/
def hexDigitValue (c : Char) : Nat :=
  if '0' ≤ c && c ≤ '9' then c.toNat - '0'.toNat
  else if 'a' ≤ c && c ≤ 'f' then c.toNat - 'a'.toNat + 10
  else if 'A' ≤ c && c ≤ 'F' then c.toNat - 'A'.toNat + 10
  else 0

/-- Model of `std::tolower` (C locale) applied to one character. -/
def tolowerChar (c : Char) : Char :=
  if 'A' ≤ c && c ≤ 'Z' then Char.ofNat (c.toNat + 32) else c

/-! ## Percent-decoding

The source loop (solib-rocm.c, rocm_bfd_iovec_open) walks the path with an
index `i`; an escape is consumed when `path[i] == '%' && i < path.length()-2
&& isxdigit(path[i+1]) && isxdigit(path[i+2])` (the index condition says two
characters follow position `i`), advancing by 3; otherwise the character is
copied literally and the index advances by 1.  The structural translation
below matches on whether at least two characters follow the current one.
(For a path of fewer than 2 characters the C++ `size_t` subtraction
`path.length()-2` wraps and the digit tests read the delimiter or NUL byte
that follows the path view — never a hex digit — so the literal-copy branch
is taken there exactly as in this translation.) -/
def percent_decode : List Char → List Char
  | [] => []
  | c :: d1 :: d2 :: rest =>
    if c = '%' && isxdigitChar d1 && isxdigitChar d2 then
      Char.ofNat (16 * hexDigitValue d1 + hexDigitValue d2) :: percent_decode rest
    else c :: percent_decode (d1 :: d2 :: rest)
  | c :: rest => c :: percent_decode rest

/-! ## String-search helpers (std::string_view find and find_first_of) -/

/-- Does `pat` occur at the head of `s`? -/
def startsWithChars : List Char → List Char → Bool
  | [], _ => true
  | _ :: _, [] => false
  | p :: ps, c :: cs => p = c && startsWithChars ps cs

/-- Index (counting from `i`) of the first occurrence of `pat` in `s`. -/
def findSubstringAux (pat : List Char) : List Char → Nat → Option Nat
  | [], i => if pat.length = 0 then some i else none
  | c :: rest, i =>
    if startsWithChars pat (c :: rest) then some i
    else findSubstringAux pat rest (i + 1)

/-- Model of `string_view::find (pat)`: index of first occurrence, `none`
for `npos`. -/
def findSubstring (pat s : List Char) : Option Nat :=
  findSubstringAux pat s 0

/-- Index of the first element of `s` satisfying `p`. -/
def findIdxOfP (p : Char → Bool) : List Char → Option Nat
  | [] => none
  | c :: rest => if p c then some 0 else (findIdxOfP p rest).map (· + 1)

/-- Model of `string_view::find_first_of (set, start)`: absolute index of the
first character at position ≥ `start` satisfying `p`. -/
def findFirstOfFrom (p : Char → Bool) (s : List Char) (start : Nat) : Option Nat :=
  (findIdxOfP p (s.drop start)).map (· + start)

/-! ## Query tokenization

The source repeatedly does `uri.find ('&', last)` and slices `[last, pos)`,
finishing with the slice `[last, end)`; on a suffix `uri.drop last` this is
exactly splitting on `'&'` (empty segments included). -/
def splitOnAmp : List Char → List (List Char)
  | [] => [[]]
  | c :: rest =>
    let r := splitOnAmp rest
    if c = '&' then [] :: r
    else
      match r with
      | [] => [[c]]
      | t :: ts => (c :: t) :: ts

/-! ## Parameter map

`std::unordered_map::emplace` inserts only if the key is absent;
`find` then retrieves the stored (first-inserted) value. -/

/-- First value bound to `key` (model of `unordered_map::find`). -/
def lookupParam : List (List Char × List Char) → List Char → Option (List Char)
  | [], _ => none
  | (k, v) :: rest, key => if k = key then some v else lookupParam rest key

/-- Model of `unordered_map::emplace`: insert only if the key is absent. -/
def emplaceParam (m : List (List Char × List Char)) (k v : List Char) :
    List (List Char × List Char) :=
  if (lookupParam m k).isSome then m else m ++ [(k, v)]

/-- One token of the query: split on the first `'='` (tokens without `'='`
are dropped), then `emplace` the pair. -/
def emplaceToken (m : List (List Char × List Char)) (token : List Char) :
    List (List Char × List Char) :=
  match findIdxOfP (fun c => c = '=') token with
  | none => m
  | some d => emplaceParam m (token.take d) (token.drop (d + 1))

/-! ## The URI parser (first half of rocm_bfd_iovec_open) -/

structure ParsedUri where
  protocol : List Char
  rawPath : List Char
  decodedPath : List Char
  params : List (List Char × List Char)
deriving DecidableEq, Repr

/-- The protocol delimiter `"://"`. -/
def protocolDelim : List Char := [':', '/', '/']

/-- Structure-extraction half of `rocm_bfd_iovec_open`: protocol (lowercased),
path up to the first `'#'` or `'?'`, percent-decoded path, and the tag-value
map of the query/fragment.  Returns `none` when `"://"` does not occur; the
sole caller (`rocm_solib_bfd_open`) only passes strings containing `"://"`. -/
def parse_uri (uri : List Char) : Option ParsedUri :=
  match findSubstring protocolDelim uri with
  | none => none
  | some delimIdx =>
    let protocol := (uri.take delimIdx).map tolowerChar
    let protocolEnd := delimIdx + 3
    match findFirstOfFrom (fun c => c = '#' || c = '?') uri protocolEnd with
    | some pathEnd =>
      let path := (uri.drop protocolEnd).take (pathEnd - protocolEnd)
      let tokens := splitOnAmp (uri.drop (pathEnd + 1))
      some ⟨protocol, path, percent_decode path, tokens.foldl emplaceToken []⟩
    | none =>
      let path := uri.drop protocolEnd
      some ⟨protocol, path, percent_decode path, []⟩

end RocmSolib

namespace RocmSolib

/-! ## Integer parsing

`strtoulst` itself lives in gdbsupport/common-utils.c, outside the sources
under review; it is modelled from the spec. -/

/-- Value of `c` as a digit or letter, base-independent. -/
def rawDigitValue (c : Char) : Option Nat :=
  if '0' ≤ c && c ≤ '9' then some (c.toNat - '0'.toNat)
  else if 'a' ≤ c && c ≤ 'z' then some (c.toNat - 'a'.toNat + 10)
  else if 'A' ≤ c && c ≤ 'Z' then some (c.toNat - 'A'.toNat + 10)
  else none

/-- Value of `c` as a digit in `base` (digits, then letters), if valid. -/
def digitValue (base : Nat) (c : Char) : Option Nat :=
  match rawDigitValue c with
  | some d => if d < base then some d else none
  | none => none

def parseDigitsAux (base : Nat) (acc : Nat) : List Char → Option Nat
  | [] => some acc
  | c :: rest =>
    match digitValue base c with
    | some d => parseDigitsAux base (acc * base + d) rest
    | none => none

/-- All of `s` read as digits in `base`; `none` if empty or any char is not
a digit of `base`. -/
def parseDigits (base : Nat) (s : List Char) : Option Nat :=
  match s with
  | [] => none
  | _ => parseDigitsAux base 0 s

/-- Modelled from the spec: `strtoulst` (gdbsupport/common-utils.c, not among
the sources under review) as used here with base 0 accepts standard numeric
literal forms — `0x`/`0X`-prefixed hexadecimal, `0`-prefixed octal, and
decimal; a value that is not a valid numeric literal is a failure (reported
through `errno`, turned into an error by the caller's `try_strtoulst`). -/
def strtoulst (s : List Char) : Option Nat :=
  match s with
  | '0' :: 'x' :: rest => parseDigits 16 rest
  | '0' :: 'X' :: rest => parseDigits 16 rest
  | '0' :: rest => if rest.length = 0 then some 0 else parseDigits 8 rest
  | [] => none
  | _ => parseDigits 10 s

inductive OpenError
  | parseError
  | invalidSize
  | unsupportedProtocol
  | processMismatch
  | ioFailure
  | memoryReadFailure
  | noProtocolDelim
deriving DecidableEq, Repr

/-- The `try_strtoulst` lambda of `rocm_bfd_iovec_open`: parse failure raises
an error (caught below and turned into a failed open). -/
def try_strtoulst (v : List Char) : Except OpenError Nat :=
  match strtoulst v with
  | some n => Except.ok n
  | none => Except.error OpenError.parseError

/-- Offset/size extraction of `rocm_bfd_iovec_open`: `offset` defaults to 0,
`size` defaults to 0 (= unspecified), an explicit `size=0` is an error. -/
def get_offset_size (params : List (List Char × List Char)) :
    Except OpenError (Nat × Nat) := do
  let offset ←
    match lookupParam params ("offset".data) with
    | some v => try_strtoulst v
    | none => pure 0
  let size ←
    match lookupParam params ("size".data) with
    | some v => do
      let s ← try_strtoulst v
      if s = 0 then throw OpenError.invalidSize else pure s
    | none => pure (0 : Nat)
  pure (offset, size)

end RocmSolib

namespace RocmSolib

/-! ## Target oracles and the dispatch half of rocm_bfd_iovec_open -/

/-- The target-side facilities consumed by the opener: the inferior's pid,
`target_fileio_open` (on the decoded path; `none` = failure), and the
inferior's address space (`none` = unmapped byte). -/
structure Target where
  pid : Nat
  fileOpen : List Char → Option Nat
  mem : Nat → Option Nat

/-- Model of `target_read_memory (addr, buf, n)`: all-or-nothing read of `n`
bytes starting at `addr`. -/
def target_read_memory (mem : Nat → Option Nat) (addr : Nat) : Nat → Option (List Nat)
  | 0 => some []
  | n + 1 =>
    match mem addr, target_read_memory mem (addr + 1) n with
    | some b, some rest => some (b :: rest)
    | _, _ => none

inductive OpenResult
  | fileStream (fd offset size : Nat)
  | memoryStream (image : List Nat)
  | openFail (e : OpenError)
deriving Repr

/-- Protocol dispatch of `rocm_bfd_iovec_open`: `file` opens the decoded path
through the target; `memory` requires the (raw) path to parse to the owning
inferior's pid, then snapshots `size` bytes at `offset`; anything else is an
unsupported protocol. -/
def dispatchOpen (t : Target) (u : ParsedUri) (offset size : Nat) :
    Except OpenError OpenResult :=
  if u.protocol = "file".data then
    match t.fileOpen u.decodedPath with
    | none => pure (OpenResult.openFail OpenError.ioFailure)
    | some fd => pure (OpenResult.fileStream fd offset size)
  else if u.protocol = "memory".data then do
    let pid ← try_strtoulst u.rawPath
    if pid ≠ t.pid then
      pure (OpenResult.openFail OpenError.processMismatch)
    else
      match target_read_memory t.mem offset size with
      | none => pure (OpenResult.openFail OpenError.memoryReadFailure)
      | some image => pure (OpenResult.memoryStream image)
  else
    pure (OpenResult.openFail OpenError.unsupportedProtocol)

/-- Model of `rocm_bfd_iovec_open`: parse the URI, extract offset/size, dispatch on the
protocol; `error (...)` throws inside the `try` block are caught and become a
failed open (`bfd_error_bad_value`). -/
def rocm_bfd_iovec_open (t : Target) (uri : List Char) : OpenResult :=
  match parse_uri uri with
  | none => OpenResult.openFail OpenError.noProtocolDelim
  | some u =>
    match (do
        let os ← get_offset_size u.params
        dispatchOpen t u os.1 os.2 : Except OpenError OpenResult) with
    | Except.ok r => r
    | Except.error e => OpenResult.openFail e

end RocmSolib

namespace RocmSolib

/-! ## Stream backends -/

/-- The modulus 2^64 of the C++ 64-bit unsigned (`size_t`) arithmetic. -/
def UINT64_MOD : Nat := 2 ^ 64

/-- Model of `rocm_code_object_stream_memory::read`.  The clamp
`if (size > m_objfile_image.size () - offset) size = ...` is evaluated after
the usual C++ arithmetic conversions in unsigned 64-bit (`size_t`)
arithmetic, so the subtraction wraps when `offset` exceeds the image size;
this model keeps that wrap explicit.  Returns the value `read` returns (the
clamped size, i.e. the byte count `memcpy` is asked to copy) together with
the bytes of the snapshot actually available in that range. -/
def memory_stream_read (image : List Nat) (size offset : Nat) : Nat × List Nat :=
  let sub := (image.length + UINT64_MOD - offset) % UINT64_MOD
  let size' := if size % UINT64_MOD > sub then sub else size
  (size', (image.drop offset).take size')

/-- State of a `rocm_code_object_stream_file` (the target file descriptor,
the offset of the image in the target file, and the declared image size,
`0` meaning unspecified in the URI descriptor). -/
structure RocmCodeObjectStreamFile where
  m_fd : Nat
  m_offset : Nat
  m_size : Nat
deriving DecidableEq, Repr

inductive SizeResult
  | ok (n : Nat)
  | ioError
  | badValue
deriving DecidableEq, Repr

/-- Model of `rocm_code_object_stream_file::size`.  Here `fstatResult` is the outcome of
`target_fileio_fstat` on `m_fd` (`none` = failure, `some len` = `st_size`).
When `m_size` is 0 the size is resolved from the underlying file and cached
in `m_size`; `m_offset ≥ st_size` is `bfd_error_bad_value`. -/
def file_stream_size (s : RocmCodeObjectStreamFile) (fstatResult : Option Nat) :
    SizeResult × RocmCodeObjectStreamFile :=
  if s.m_size = 0 then
    match fstatResult with
    | none => (SizeResult.ioError, s)
    | some len =>
      if s.m_offset ≥ len then (SizeResult.badValue, s)
      else (SizeResult.ok (len - s.m_offset), { s with m_size := len - s.m_offset })
  else (SizeResult.ok s.m_size, s)

/-! ## Solib list, deep copy, and merger -/

/-- The payload of one `struct so_list` entry as built by this subsystem:
load address (`lm_info_svr4::l_addr`), URI (`so_name`), and the unique
original name (`so_original_name`). -/
structure SoEntry where
  l_addr : Nat
  so_name : List Char
  so_original_name : List Char
deriving DecidableEq, Repr

/-- One heap node of the solib linked list: an allocation identity (the
address `XNEW` returned) plus the entry payload. -/
structure SoNode where
  node_id : Nat
  entry : SoEntry
deriving DecidableEq, Repr

/-- Model of `rocm_solib_copy_list`: allocate a fresh node (`XNEW` + `new lm_info_svr4
(*src_li)`) for every source node, copying the payload.  The allocator is
modelled by consecutive identities starting at `fresh`; freshness relative
to existing nodes is a hypothesis of the theorems. -/
def rocm_solib_copy_list : List SoNode → Nat → List SoNode
  | [], _ => []
  | n :: rest, fresh => ⟨fresh, n.entry⟩ :: rocm_solib_copy_list rest (fresh + 1)

/-- Model of `rocm_solib_current_sos`: the host (svr4) list first; if the device
registry is empty, just the host list; otherwise a deep copy of the registry
appended at the tail of the host list. -/
def rocm_solib_current_sos (host registry : List SoNode) (fresh : Nat) : List SoNode :=
  if registry = [] then host
  else
    let copied := rocm_solib_copy_list registry fresh
    if host = [] then copied else host ++ copied

/-! ## Refresh controller -/

/-- Outcome of `amd_dbgapi_process_code_object_list` plus the per-object
info queries: on success, the runtime-reported modules in order, each with
load address, URI name, and code-object handle. -/
inductive QueryResult
  | success (modules : List (Nat × List Char × Nat))
  | failure
deriving Repr

/-- The `so_original_name` as built by `rocm_update_solib_list`:
`code_object_<handle>`, making entries with equal URIs but different load
addresses distinct for the gdb core. -/
def codeObjectOriginalName (handle : Nat) : List Char :=
  "code_object_".data ++ Nat.toDigits 10 handle

/-- The entries `rocm_update_solib_list` builds from a successful query. -/
def buildEntries (modules : List (Nat × List Char × Nat)) : List SoEntry :=
  modules.map (fun m => ⟨m.1, m.2.1, codeObjectOriginalName m.2.2⟩)

/-- The per-inferior registry (`solib_info`). -/
structure SolibInfo where
  solib_list : List SoEntry
deriving DecidableEq, Repr

/-- Model of `rocm_update_solib_list`: if no amd-dbgapi process is attached, return
with the registry untouched; otherwise free the current list first, then
query the runtime: on failure warn and leave the freshly-emptied registry,
on success rebuild it from the reported modules.  The `Bool` result records
whether a warning was emitted. -/
def rocm_update_solib_list (info : SolibInfo) (hasDbgApiProcess : Bool)
    (q : QueryResult) : SolibInfo × Bool :=
  if hasDbgApiProcess = false then (info, false)
  else
    match q with
    | QueryResult.failure => (⟨[]⟩, true)
    | QueryResult.success modules => (⟨buildEntries modules⟩, false)

/-- Model of `rocm_solib_handle_event`: forward to the host (svr4) handler first, then
refresh the device-side registry. -/
def rocm_solib_handle_event {H : Type} (svr4HandleEvent : H → H) (host : H)
    (info : SolibInfo) (hasDbgApiProcess : Bool) (q : QueryResult) :
    H × SolibInfo × Bool :=
  let host' := svr4HandleEvent host
  let r := rocm_update_solib_list info hasDbgApiProcess q
  (host', r.1, r.2)

end RocmSolib

namespace RocmSolib

/-! ## Lemmas about percent-decoding -/

theorem percent_decode_cons_ne (c : Char) (l : List Char) (hc : c ≠ '%') :
    percent_decode (c :: l) = c :: percent_decode l := by
  cases l with
  | nil => simp [percent_decode]
  | cons d1 l1 =>
    cases l1 with
    | nil => simp [percent_decode]
    | cons d2 l2 => simp [percent_decode, hc]

theorem percent_decode_append (pre l : List Char) (h : '%' ∉ pre) :
    percent_decode (pre ++ l) = pre ++ percent_decode l := by
  induction pre with
  | nil => simp
  | cons c pre ih =>
    have hc : c ≠ '%' := fun e => h (e ▸ List.mem_cons_self c pre)
    have hpre : '%' ∉ pre := fun hm => h (List.mem_cons_of_mem c hm)
    simp [percent_decode_cons_ne c _ hc, ih hpre]

theorem percent_decode_escape (d1 d2 : Char) (l : List Char)
    (h1 : isxdigitChar d1 = true) (h2 : isxdigitChar d2 = true) :
    percent_decode ('%' :: d1 :: d2 :: l)
      = Char.ofNat (16 * hexDigitValue d1 + hexDigitValue d2) :: percent_decode l := by
  simp [percent_decode, h1, h2]

theorem percent_decode_bad_escape (d1 d2 : Char) (l : List Char)
    (h : (isxdigitChar d1 && isxdigitChar d2) = false) :
    percent_decode ('%' :: d1 :: d2 :: l) = '%' :: percent_decode (d1 :: d2 :: l) := by
  rcases Bool.and_eq_false_iff.mp h with h1 | h2
  · simp [percent_decode, h1]
  · simp [percent_decode, h2]

/-- C2: percent-decoding replaces every `'%'` followed by two hex digits by
the byte those digits denote; an escape with fewer than two trailing hex
digits — malformed, or truncated at or near the end of the segment — stays
in the output as literal text, and decoding is total (never fails). -/
theorem c2_percent_decoding_escapes (pre suf : List Char) (d1 d2 d : Char)
    (hpre : '%' ∉ pre) :
    (isxdigitChar d1 = true → isxdigitChar d2 = true →
       percent_decode (pre ++ '%' :: d1 :: d2 :: suf)
         = pre ++ Char.ofNat (16 * hexDigitValue d1 + hexDigitValue d2) :: percent_decode suf)
    ∧ ((isxdigitChar d1 && isxdigitChar d2) = false →
       percent_decode (pre ++ '%' :: d1 :: d2 :: suf)
         = pre ++ '%' :: percent_decode (d1 :: d2 :: suf))
    ∧ percent_decode (pre ++ ['%']) = pre ++ ['%']
    ∧ percent_decode (pre ++ ['%', d]) = pre ++ ['%', d]
    ∧ percent_decode pre = pre := by
  refine ⟨?_, ?_, ?_, ?_, ?_⟩
  · intro h1 h2
    rw [percent_decode_append _ _ hpre, percent_decode_escape d1 d2 suf h1 h2]
  · intro h
    rw [percent_decode_append _ _ hpre, percent_decode_bad_escape d1 d2 suf h]
  · rw [percent_decode_append _ _ hpre]
    rfl
  · rw [percent_decode_append _ _ hpre]
    simp [percent_decode]
  · have := percent_decode_append pre [] hpre
    simpa [percent_decode] using this

/-- Witness for C2: a valid escape decodes to its byte, a truncated escape is
kept literally. -/
theorem c2_witness :
    percent_decode ("ab%41z".data) = "abAz".data
    ∧ percent_decode ("x%4".data) = "x%4".data := by
  constructor
  · exact ((c2_percent_decoding_escapes "ab".data "z".data '4' '1' 'q'
      (by decide)).1 (by decide) (by decide)).trans (by decide)
  · exact ((c2_percent_decoding_escapes "x".data [] '4' '1' '4'
      (by decide)).2.2.2.1).trans (by decide)

/-! ## C3: memory snapshot reads past the end -/

/-- C3 evidence: on a 10-byte snapshot, a read at offset 20 (past the end)
returns 5 — the unsigned subtraction `m_objfile_image.size () - offset`
wraps, the clamp is skipped and `memcpy` reads out of bounds — while a read
exactly at the end returns 0 and a straddling read is clamped to the
remaining bytes. -/
theorem c3_memory_read_code_behavior :
    (memory_stream_read (List.replicate 10 0) 5 20).1 = 5
    ∧ ¬ (memory_stream_read (List.replicate 10 0) 5 20).1 = 0
    ∧ (memory_stream_read (List.replicate 10 0) 5 20).2 = []
    ∧ (memory_stream_read (List.replicate 10 0) 5 10).1 = 0
    ∧ (memory_stream_read (List.replicate 10 0) 7 6).1 = 4 := by
  refine ⟨?_, ?_, ?_, ?_, ?_⟩ <;> decide

/-! ## C4: lazy size resolution of the file-backed stream -/

/-- C4: with declared size 0 (unspecified), `size ()` resolves to the
underlying length minus the stored offset and caches it (a second call
returns the same value whatever the fstat oracle then says, so the source is
consulted at most once); `offset ≥ length` is a bad-value failure, an fstat
failure is an I/O failure; a nonzero declared size is returned unchanged. -/
theorem c4_file_size_resolution (fd offset declared len : Nat) :
    (offset < len →
       file_stream_size ⟨fd, offset, 0⟩ (some len)
         = (SizeResult.ok (len - offset), ⟨fd, offset, len - offset⟩)
       ∧ ∀ fstat2, file_stream_size ⟨fd, offset, len - offset⟩ fstat2
           = (SizeResult.ok (len - offset), ⟨fd, offset, len - offset⟩))
    ∧ (offset ≥ len → (file_stream_size ⟨fd, offset, 0⟩ (some len)).1 = SizeResult.badValue)
    ∧ (file_stream_size ⟨fd, offset, 0⟩ none).1 = SizeResult.ioError
    ∧ (declared ≠ 0 → ∀ fstat2, file_stream_size ⟨fd, offset, declared⟩ fstat2
         = (SizeResult.ok declared, ⟨fd, offset, declared⟩)) := by
  refine ⟨?_, ?_, ?_, ?_⟩
  · intro h
    have hge : ¬ (offset ≥ len) := by omega
    have hne : ¬ (len - offset = 0) := by omega
    exact ⟨by simp [file_stream_size, hge], fun fstat2 => by simp [file_stream_size, hne]⟩
  · intro h
    simp [file_stream_size, h]
  · simp [file_stream_size]
  · intro h fstat2
    simp [file_stream_size, h]

/-- Witness for C4 at a concrete stream: resolution, caching-shape, failure
and declared-size cases. -/
theorem c4_witness :
    file_stream_size ⟨3, 2, 0⟩ (some 5) = (SizeResult.ok 3, ⟨3, 2, 3⟩)
    ∧ (file_stream_size ⟨3, 7, 0⟩ (some 5)).1 = SizeResult.badValue
    ∧ file_stream_size ⟨3, 2, 9⟩ none = (SizeResult.ok 9, ⟨3, 2, 9⟩) :=
  ⟨((c4_file_size_resolution 3 2 9 5).1 (by decide)).1,
   (c4_file_size_resolution 3 7 9 5).2.1 (by decide),
   (c4_file_size_resolution 3 2 9 5).2.2.2 (by decide) none⟩

/-! ## C6: merge ordering and deep copies -/

theorem copy_list_entries (src : List SoNode) (fresh : Nat) :
    (rocm_solib_copy_list src fresh).map SoNode.entry = src.map SoNode.entry := by
  induction src generalizing fresh with
  | nil => rfl
  | cons n rest ih => simp [rocm_solib_copy_list, ih]

theorem copy_list_ids (src : List SoNode) (fresh : Nat) :
    ∀ m ∈ rocm_solib_copy_list src fresh, fresh ≤ m.node_id := by
  induction src generalizing fresh with
  | nil => simp [rocm_solib_copy_list]
  | cons n rest ih =>
    intro m hm
    rcases List.mem_cons.mp hm with rfl | hm
    · exact Nat.le_refl _
    · exact Nat.le_of_succ_le (ih (fresh + 1) m hm)

/-- C6: the merged list is host modules first (in host order) followed by
registry modules (in runtime order), never interleaved; the registry part of
the handed-out list consists of freshly allocated nodes, never aliasing a
node owned by the registry. -/
theorem c6_merge_order_and_deep_copy (host registry : List SoNode) (fresh : Nat)
    (hFresh : ∀ n ∈ registry, n.node_id < fresh) :
    (rocm_solib_current_sos host registry fresh).map SoNode.entry
      = host.map SoNode.entry ++ registry.map SoNode.entry
    ∧ ∀ m ∈ (rocm_solib_current_sos host registry fresh).drop host.length,
        ∀ n ∈ registry, m.node_id ≠ n.node_id := by
  by_cases hreg : registry = []
  · subst hreg
    constructor
    · simp [rocm_solib_current_sos]
    · simp [rocm_solib_current_sos, List.drop_length]
  · have hfreshid : ∀ m ∈ rocm_solib_copy_list registry fresh, ∀ n ∈ registry,
        m.node_id ≠ n.node_id := by
      intro m hm n hn
      have h1 := copy_list_ids registry fresh m hm
      have h2 := hFresh n hn
      omega
    by_cases hh : host = []
    · subst hh
      constructor
      · simp [rocm_solib_current_sos, hreg, copy_list_entries]
      · simpa [rocm_solib_current_sos, hreg] using hfreshid
    · constructor
      · simp [rocm_solib_current_sos, hreg, hh, copy_list_entries]
      · intro m hm n hn
        have : m ∈ rocm_solib_copy_list registry fresh := by
          have hdrop : (host ++ rocm_solib_copy_list registry fresh).drop host.length
              = rocm_solib_copy_list registry fresh := List.drop_left host _
          simpa [rocm_solib_current_sos, hreg, hh, hdrop] using hm
        exact hfreshid m this n hn

/-- Witness for C6 at concrete lists with fresh allocation ids. -/
theorem c6_witness :
    (rocm_solib_current_sos [⟨0, 10, "a".data, "oa".data⟩, ⟨1, 11, "b".data, "ob".data⟩]
        [⟨2, 20, "c".data, "oc".data⟩, ⟨3, 21, "d".data, "od".data⟩] 4).map SoNode.entry
      = [⟨10, "a".data, "oa".data⟩, ⟨11, "b".data, "ob".data⟩,
         ⟨20, "c".data, "oc".data⟩, ⟨21, "d".data, "od".data⟩]
    ∧ ∀ m ∈ (rocm_solib_current_sos [⟨0, 10, "a".data, "oa".data⟩, ⟨1, 11, "b".data, "ob".data⟩]
        [⟨2, 20, "c".data, "oc".data⟩, ⟨3, 21, "d".data, "od".data⟩] 4).drop 2,
        ∀ n ∈ [(⟨2, 20, "c".data, "oc".data⟩ : SoNode), ⟨3, 21, "d".data, "od".data⟩],
          m.node_id ≠ n.node_id :=
  c6_merge_order_and_deep_copy
    [⟨0, 10, "a".data, "oa".data⟩, ⟨1, 11, "b".data, "ob".data⟩]
    [⟨2, 20, "c".data, "oc".data⟩, ⟨3, 21, "d".data, "od".data⟩] 4 (by decide)

/-! ## C9: query failure during a refresh -/

/-- C9: on a refresh cycle whose runtime query fails, the host loader's own
handler still runs first, the registry is left empty for the cycle (no entry
of the previous cycle survives, whatever `info` held), a warning is emitted,
and the refresh returns normally. -/
theorem c9_query_failure_degrades_gracefully :
    ∀ (H : Type) (svr4HandleEvent : H → H) (host : H) (info : SolibInfo),
      rocm_solib_handle_event svr4HandleEvent host info true QueryResult.failure
        = (svr4HandleEvent host, ⟨[]⟩, true) := by
  intro H f host info
  rfl

end RocmSolib

namespace RocmSolib

/-! ## C7: duplicate query keys -/

/-- The key/value split of one token (the token's part before the first `'='`
and the part after it; tokens without `'='` yield nothing). -/
def tokenKV (token : List Char) : Option (List Char × List Char) :=
  match findIdxOfP (fun c => c = '=') token with
  | none => none
  | some d => some (token.take d, token.drop (d + 1))

theorem lookupParam_append (a b : List (List Char × List Char)) (key : List Char) :
    lookupParam (a ++ b) key
      = match lookupParam a key with
        | some w => some w
        | none => lookupParam b key := by
  induction a with
  | nil => simp [lookupParam]
  | cons kv a ih =>
    by_cases h : kv.1 = key
    · simp [lookupParam, h]
    · simp [lookupParam, h, ih]

theorem lookupParam_emplaceParam (m : List (List Char × List Char))
    (k v key : List Char) :
    lookupParam (emplaceParam m k v) key
      = match lookupParam m key with
        | some w => some w
        | none => if k = key then some v else none := by
  unfold emplaceParam
  cases hk : lookupParam m k with
  | some w =>
    simp only [hk, Option.isSome_some, if_true]
    cases hkey : lookupParam m key with
    | some w' => simp
    | none =>
      by_cases hkk : k = key
      · rw [hkk] at hk
        rw [hk] at hkey
        exact absurd hkey (by simp)
      · simp [hkk]
  | none =>
    simp only [hk, Option.isSome_none, Bool.false_eq_true, if_false]
    rw [lookupParam_append]
    cases hkey : lookupParam m key with
    | some w' => simp
    | none => simp [lookupParam]

theorem lookupParam_foldl_emplaceToken (tokens : List (List Char))
    (m : List (List Char × List Char)) (key : List Char) :
    lookupParam (tokens.foldl emplaceToken m) key
      = match lookupParam m key with
        | some w => some w
        | none => lookupParam (tokens.filterMap tokenKV) key := by
  induction tokens generalizing m with
  | nil =>
    cases h : lookupParam m key <;> simp [h, lookupParam]
  | cons t ts ih =>
    rw [List.foldl_cons, ih]
    cases hsplit : findIdxOfP (fun c => c = '=') t with
    | none =>
      have he : emplaceToken m t = m := by simp [emplaceToken, hsplit]
      have hkv : tokenKV t = none := by simp [tokenKV, hsplit]
      rw [he, List.filterMap_cons, hkv]
    | some d =>
      have he : emplaceToken m t = emplaceParam m (t.take d) (t.drop (d + 1)) := by
        simp [emplaceToken, hsplit]
      have hkv : tokenKV t = some (t.take d, t.drop (d + 1)) := by
        simp [tokenKV, hsplit]
      rw [he, List.filterMap_cons, hkv, lookupParam_emplaceParam]
      cases hkey : lookupParam m key with
      | some w => simp
      | none =>
        by_cases hkk : t.take d = key
        · simp [lookupParam, hkk]
        · simp [lookupParam, hkk]

/-- C7: the tag-value map built by `emplace` keeps the value of the first
occurrence of each key and ignores all later occurrences — looking a key up
in the built map is looking it up in the plain first-to-last token list —
and on a query with duplicated `offset` and `size` keys the parser uses the
first `offset` and the first `size` value. -/
theorem c7_first_occurrence_wins :
    (∀ (tokens : List (List Char)) (key : List Char),
       lookupParam (tokens.foldl emplaceToken []) key
         = lookupParam (tokens.filterMap tokenKV) key)
    ∧ (parse_uri ("file://p?offset=1&offset=2&size=3&size=4".data)).map ParsedUri.params
        = some [("offset".data, "1".data), ("size".data, "3".data)]
    ∧ get_offset_size [("offset".data, "1".data), ("size".data, "3".data)]
        = Except.ok (1, 3) := by
  refine ⟨?_, by decide, rfl⟩
  intro tokens key
  rw [lookupParam_foldl_emplaceToken]
  simp [lookupParam]

end RocmSolib

namespace RocmSolib

/-! ## Locating the protocol delimiter, the path and the query in a URI -/

theorem findSubstringAux_delim (s r : List Char) (hs : ':' ∉ s) (i : Nat) :
    findSubstringAux protocolDelim (s ++ ':' :: '/' :: '/' :: r) i
      = some (i + s.length) := by
  induction s generalizing i with
  | nil => simp [findSubstringAux, startsWithChars, protocolDelim]
  | cons c s ih =>
    have hc : (':' : Char) ≠ c := fun e => hs (e ▸ List.mem_cons_self c s)
    have hs' : ':' ∉ s := fun hm => hs (List.mem_cons_of_mem c hm)
    have hsw : startsWithChars protocolDelim (c :: (s ++ ':' :: '/' :: '/' :: r))
        = false := by
      simp [startsWithChars, protocolDelim]
      intro e
      exact absurd e hc
    have step : findSubstringAux protocolDelim ((c :: s) ++ ':' :: '/' :: '/' :: r) i
        = findSubstringAux protocolDelim (s ++ ':' :: '/' :: '/' :: r) (i + 1) := by
      simp [findSubstringAux, hsw]
    rw [step, ih hs']
    congr 1
    simp
    omega

theorem findSubstring_delim (s r : List Char) (hs : ':' ∉ s) :
    findSubstring protocolDelim (s ++ ':' :: '/' :: '/' :: r) = some s.length := by
  have := findSubstringAux_delim s r hs 0
  simpa [findSubstring] using this

theorem findIdxOfP_first (p : Char → Bool) (a : List Char) (d : Char) (q : List Char)
    (ha : ∀ c ∈ a, p c = false) (hd : p d = true) :
    findIdxOfP p (a ++ d :: q) = some a.length := by
  induction a with
  | nil => simp [findIdxOfP, hd]
  | cons c a ih =>
    have hc : p c = false := ha c (List.mem_cons_self c a)
    have ha' : ∀ x ∈ a, p x = false := fun x hx => ha x (List.mem_cons_of_mem c hx)
    simp [findIdxOfP, hc, ih ha']

theorem drop_protocol (s R : List Char) :
    (s ++ ':' :: '/' :: '/' :: R).drop (s.length + 3) = R := by
  have h : s ++ ':' :: '/' :: '/' :: R = (s ++ [':', '/', '/']) ++ R := by simp
  rw [h]
  apply List.drop_left'
  simp

theorem drop_after_path (s p tail : List Char) (d : Char) :
    (s ++ ':' :: '/' :: '/' :: (p ++ d :: tail)).drop (p.length + (s.length + 3) + 1)
      = tail := by
  have h : s ++ ':' :: '/' :: '/' :: (p ++ d :: tail)
      = ((s ++ [':', '/', '/'] ++ p) ++ [d]) ++ tail := by simp
  rw [h]
  apply List.drop_left'
  simp
  try omega

/-- Master parse lemma: on a URI of the shape
`scheme ++ "://" ++ path ++ delim ++ tail` where the scheme holds no `':'`,
the path holds no `'#'` or `'?'`, and `delim` is `'#'` or `'?'`, the parser
yields the lowercased scheme, the raw and percent-decoded path, and the
parameter map built from the `'&'`-split of `tail`. -/
theorem parse_uri_scheme_path_query (s p tail : List Char) (d : Char)
    (hs : ':' ∉ s) (hp : ∀ c ∈ p, ((c = '#' : Bool) || (c = '?' : Bool)) = false)
    (hd : ((d = '#' : Bool) || (d = '?' : Bool)) = true) :
    parse_uri (s ++ ':' :: '/' :: '/' :: (p ++ d :: tail))
      = some ⟨s.map tolowerChar, p, percent_decode p,
              (splitOnAmp tail).foldl emplaceToken []⟩ := by
  have hfind := findSubstring_delim s (p ++ d :: tail) hs
  have hdrop := drop_protocol s (p ++ d :: tail)
  have hidx := findIdxOfP_first (fun c => (c = '#' : Bool) || (c = '?' : Bool))
    p d tail hp hd
  have hdrop2 := drop_after_path s p tail d
  simp only [parse_uri, hfind, findFirstOfFrom, hdrop, hidx, Option.map_some',
    Nat.add_sub_cancel, List.take_left, List.take_append_of_le_length,
    hdrop2]

end RocmSolib

namespace RocmSolib

/-! ## Splitting the query on ampersands -/

theorem splitOnAmp_no_amp (B : List Char) (hB : '&' ∉ B) : splitOnAmp B = [B] := by
  induction B with
  | nil => rfl
  | cons c B ih =>
    have hc : c ≠ '&' := fun e => hB (e ▸ List.mem_cons_self c B)
    have hB' : '&' ∉ B := fun hm => hB (List.mem_cons_of_mem c hm)
    simp [splitOnAmp, hc, ih hB']

theorem splitOnAmp_append_amp (A B : List Char) (hA : '&' ∉ A) :
    splitOnAmp (A ++ '&' :: B) = A :: splitOnAmp B := by
  induction A with
  | nil => simp [splitOnAmp]
  | cons c A ih =>
    have hc : c ≠ '&' := fun e => hA (e ▸ List.mem_cons_self c A)
    have hA' : '&' ∉ A := fun hm => hA (List.mem_cons_of_mem c hm)
    simp [splitOnAmp, hc, ih hA']

/-! ## Characters a numeric literal can hold -/

theorem parseDigitsAux_chars (base : Nat) (s : List Char) :
    ∀ (acc n : Nat), parseDigitsAux base acc s = some n →
      ∀ c ∈ s, (digitValue base c).isSome := by
  induction s with
  | nil => simp
  | cons c s ih =>
    intro acc n h x hx
    cases hdv : digitValue base c with
    | none =>
      rw [parseDigitsAux, hdv] at h
      exact absurd h (by simp)
    | some dv =>
      rcases List.mem_cons.mp hx with rfl | hx'
      · simp [hdv]
      · rw [parseDigitsAux, hdv] at h
        exact ih _ _ h x hx'

theorem parseDigits_chars (base : Nat) (s : List Char) (n : Nat)
    (h : parseDigits base s = some n) : ∀ c ∈ s, (digitValue base c).isSome := by
  cases s with
  | nil => simp
  | cons c s => exact parseDigitsAux_chars base (c :: s) 0 n h

theorem digitValue_mono (b1 b2 : Nat) (c : Char) (hb : b1 ≤ b2)
    (h : (digitValue b1 c).isSome) : (digitValue b2 c).isSome := by
  cases hv : rawDigitValue c with
  | none => simp [digitValue, hv] at h
  | some d =>
    simp only [digitValue, hv] at h ⊢
    by_cases hd : d < b1
    · have hd2 : d < b2 := by omega
      simp [hd2]
    · simp [hd] at h

/-- Every character of a successfully parsed numeric literal is `'0'`, `'x'`,
`'X'`, or a hexadecimal-or-lower digit of the literal's base — in particular
never one of the URI delimiters. -/
theorem strtoulst_chars (v : List Char) (n : Nat) (h : strtoulst v = some n) :
    ∀ c ∈ v, c = '0' ∨ c = 'x' ∨ c = 'X' ∨ (digitValue 16 c).isSome := by
  intro c hc
  unfold strtoulst at h
  split at h
  · rename_i rest
    simp only [List.mem_cons] at hc
    rcases hc with rfl | rfl | hc'
    · exact Or.inl rfl
    · exact Or.inr (Or.inl rfl)
    · exact Or.inr (Or.inr (Or.inr (parseDigits_chars 16 rest n h c hc')))
  · rename_i rest
    simp only [List.mem_cons] at hc
    rcases hc with rfl | rfl | hc'
    · exact Or.inl rfl
    · exact Or.inr (Or.inr (Or.inl rfl))
    · exact Or.inr (Or.inr (Or.inr (parseDigits_chars 16 rest n h c hc')))
  · rename_i rest hnx hnX
    simp only [List.mem_cons] at hc
    rcases hc with rfl | hc'
    · exact Or.inl rfl
    · by_cases hlen : rest.length = 0
      · rw [List.length_eq_zero] at hlen
        subst hlen
        simp at hc'
      · rw [if_neg hlen] at h
        exact Or.inr (Or.inr (Or.inr
          (digitValue_mono 8 16 c (by omega) (parseDigits_chars 8 rest n h c hc'))))
  · simp at hc
  · exact Or.inr (Or.inr (Or.inr
      (digitValue_mono 10 16 c (by omega) (parseDigits_chars 10 v n h c hc))))

theorem strtoulst_no_delim (v : List Char) (n : Nat) (h : strtoulst v = some n)
    (c : Char) (hdelim : c = '&' ∨ c = '#' ∨ c = '?' ∨ c = ':') : c ∉ v := by
  intro hm
  have := strtoulst_chars v n h c hm
  rcases hdelim with rfl | rfl | rfl | rfl <;>
    rcases this with h1 | h1 | h1 | h1 <;> revert h1 <;> decide

end RocmSolib

namespace RocmSolib

/-! ## C1 and C10: what the parser recovers -/

theorem open_congr (t : Target) {u1 u2 : List Char}
    (h : parse_uri u1 = parse_uri u2) :
    rocm_bfd_iovec_open t u1 = rocm_bfd_iovec_open t u2 := by
  unfold rocm_bfd_iovec_open
  rw [h]

theorem emplaceToken_keyval (m : List (List Char × List Char)) (k v : List Char)
    (hk : ∀ c ∈ k, (c = '=' : Bool) = false) :
    emplaceToken m (k ++ '=' :: v) = emplaceParam m k v := by
  have hidx := findIdxOfP_first (fun c => (c = '=' : Bool)) k '=' v hk (by decide)
  have htake : (k ++ '=' :: v).take k.length = k := List.take_left k ('=' :: v)
  have hdrop : (k ++ '=' :: v).drop (k.length + 1) = v := by
    have h : k ++ '=' :: v = (k ++ ['=']) ++ v := by simp
    rw [h]
    apply List.drop_left'
    simp
  simp [emplaceToken, hidx, htake, hdrop]

/-- Shared request-extraction lemma: on any `scheme://p?offset=o&size=s`
descriptor (scheme without `':'`, locator without `'?'`/`'#'`, numeric
offset and nonzero numeric size values), the parser yields the lowercased
scheme, the raw and percent-decoded locator, and the two query bindings,
and the offset/size extraction yields the two parsed values. -/
theorem parse_uri_query_request (s p o z : List Char) (vo vz : Nat)
    (hs : ':' ∉ s) (hp1 : '#' ∉ p) (hp2 : '?' ∉ p)
    (ho : strtoulst o = some vo) (hz : strtoulst z = some vz) (hz0 : vz ≠ 0) :
    parse_uri (s ++ "://".data ++ p ++ "?offset=".data ++ o ++ "&size=".data ++ z)
      = some ⟨s.map tolowerChar, p, percent_decode p,
              [("offset".data, o), ("size".data, z)]⟩
    ∧ get_offset_size [("offset".data, o), ("size".data, z)] = Except.ok (vo, vz) := by
  have hp : ∀ c ∈ p, ((c = '#' : Bool) || (c = '?' : Bool)) = false := by
    intro c hcmem
    have h1 : c ≠ '#' := fun e => hp1 (e ▸ hcmem)
    have h2 : c ≠ '?' := fun e => hp2 (e ▸ hcmem)
    simp [h1, h2]
  have hnormal : ∀ s' : List Char,
      s' ++ "://".data ++ p ++ "?offset=".data ++ o ++ "&size=".data ++ z
        = s' ++ ':' :: '/' :: '/' ::
            (p ++ '?' :: ("offset=".data ++ o ++ '&' :: ("size=".data ++ z))) := by
    intro s'
    have e1 : "://".data = [':', '/', '/'] := rfl
    have e2 : "?offset=".data = '?' :: "offset=".data := rfl
    have e3 : "&size=".data = '&' :: "size=".data := rfl
    rw [e2, e3, e1]
    simp
  have hampo : '&' ∉ "offset=".data ++ o := by
    intro hm
    rcases List.mem_append.mp hm with hm1 | hm2
    · exact absurd hm1 (by decide)
    · exact strtoulst_no_delim o vo ho '&' (Or.inl rfl) hm2
  have hampz : '&' ∉ "size=".data ++ z := by
    intro hm
    rcases List.mem_append.mp hm with hm1 | hm2
    · exact absurd hm1 (by decide)
    · exact strtoulst_no_delim z vz hz '&' (Or.inl rfl) hm2
  have hsplit : splitOnAmp ("offset=".data ++ o ++ '&' :: ("size=".data ++ z))
      = ["offset=".data ++ o, "size=".data ++ z] := by
    have hshape : "offset=".data ++ o ++ '&' :: ("size=".data ++ z)
        = ("offset=".data ++ o) ++ '&' :: ("size=".data ++ z) := by simp
    rw [hshape, splitOnAmp_append_amp _ _ hampo, splitOnAmp_no_amp _ hampz]
  have hparams : (["offset=".data ++ o, "size=".data ++ z]).foldl emplaceToken []
      = [("offset".data, o), ("size".data, z)] := by
    have eo : "offset=".data ++ o = "offset".data ++ '=' :: o := rfl
    have ez : "size=".data ++ z = "size".data ++ '=' :: z := rfl
    rw [List.foldl_cons, List.foldl_cons, List.foldl_nil, eo, ez,
      emplaceToken_keyval _ _ _ (by decide), emplaceToken_keyval _ _ _ (by decide)]
    have h1 : emplaceParam [] ("offset".data) o = [("offset".data, o)] := by
      simp [emplaceParam, lookupParam]
    rw [h1]
    have hne : ¬ ("offset".data = "size".data) := by decide
    simp [emplaceParam, lookupParam, hne]
  have hgetos : get_offset_size [("offset".data, o), ("size".data, z)]
      = Except.ok (vo, vz) := by
    have l1 : lookupParam [("offset".data, o), ("size".data, z)] ("offset".data)
        = some o := by simp [lookupParam]
    have l2 : lookupParam [("offset".data, o), ("size".data, z)] ("size".data)
        = some z := by
      have hne : ¬ ("offset".data = "size".data) := by decide
      simp [lookupParam, hne]
    unfold get_offset_size
    rw [l1, l2]
    simp only [try_strtoulst, ho, hz]
    change (if vz = 0 then (Prod.mk vo <$> throw OpenError.invalidSize :
        Except OpenError (Nat × Nat)) else pure (vo, vz)) = Except.ok (vo, vz)
    rw [if_neg hz0]
    rfl
  refine ⟨?_, hgetos⟩
  rw [hnormal s, parse_uri_scheme_path_query s p _ '?' hs hp (by decide),
    hsplit, hparams]

/-- C1: for a well-formed descriptor `scheme://p?offset=o&size=s` (scheme
without `':'`, locator without `'?'`/`'#'`, numeric-literal offset and
nonzero size values), the parser recovers exactly the structured request:
the scheme lowercased, the raw and percent-decoded locator, and the offset
and size values; and the scheme is matched case-insensitively — any scheme
spelling with the same lowercase form makes the open dispatch identically. -/
theorem c1_parse_recovers_request (s p o z : List Char) (vo vz : Nat)
    (hs : ':' ∉ s) (hp1 : '#' ∉ p) (hp2 : '?' ∉ p)
    (ho : strtoulst o = some vo) (hz : strtoulst z = some vz) (hz0 : vz ≠ 0) :
    parse_uri (s ++ "://".data ++ p ++ "?offset=".data ++ o ++ "&size=".data ++ z)
      = some ⟨s.map tolowerChar, p, percent_decode p,
              [("offset".data, o), ("size".data, z)]⟩
    ∧ get_offset_size [("offset".data, o), ("size".data, z)] = Except.ok (vo, vz)
    ∧ ∀ s2 : List Char, ':' ∉ s2 → s2.map tolowerChar = s.map tolowerChar →
        ∀ t : Target,
          rocm_bfd_iovec_open t
              (s2 ++ "://".data ++ p ++ "?offset=".data ++ o ++ "&size=".data ++ z)
            = rocm_bfd_iovec_open t
              (s ++ "://".data ++ p ++ "?offset=".data ++ o ++ "&size=".data ++ z) := by
  have h := parse_uri_query_request s p o z vo vz hs hp1 hp2 ho hz hz0
  refine ⟨h.1, h.2, ?_⟩
  intro s2 hs2 hmap t
  have h2 := parse_uri_query_request s2 p o z vo vz hs2 hp1 hp2 ho hz hz0
  apply open_congr
  rw [h.1, h2.1, hmap]

/-- Witness for C1 at a concrete descriptor with a mixed-case scheme, a
percent-escaped locator, a hexadecimal offset and a decimal size. -/
theorem c1_witness :
    parse_uri ("FiLe".data ++ "://".data ++ "a%20b".data ++ "?offset=".data
        ++ "0x10".data ++ "&size=".data ++ "2".data)
      = some ⟨"file".data, "a%20b".data, "a b".data,
              [("offset".data, "0x10".data), ("size".data, "2".data)]⟩
    ∧ get_offset_size [("offset".data, "0x10".data), ("size".data, "2".data)]
        = Except.ok (16, 2) := by
  have h := c1_parse_recovers_request "FiLe".data "a%20b".data "0x10".data "2".data
    16 2 (by decide) (by decide) (by decide) (by decide) (by decide) (by decide)
  exact ⟨h.1.trans (by decide), h.2.1⟩

/-- C10: a fragment tail introduced by `'#'` is parsed exactly like a query
tail introduced by `'?'` — the two descriptors yield the same structured
request and the open dispatches identically on them. -/
theorem c10_fragment_equals_query (s p tail : List Char) (hs : ':' ∉ s)
    (hp1 : '#' ∉ p) (hp2 : '?' ∉ p) :
    parse_uri (s ++ "://".data ++ p ++ '?' :: tail)
      = parse_uri (s ++ "://".data ++ p ++ '#' :: tail)
    ∧ ∀ t : Target,
        rocm_bfd_iovec_open t (s ++ "://".data ++ p ++ '?' :: tail)
          = rocm_bfd_iovec_open t (s ++ "://".data ++ p ++ '#' :: tail) := by
  have hp : ∀ c ∈ p, ((c = '#' : Bool) || (c = '?' : Bool)) = false := by
    intro c hcmem
    have h1 : c ≠ '#' := fun e => hp1 (e ▸ hcmem)
    have h2 : c ≠ '?' := fun e => hp2 (e ▸ hcmem)
    simp [h1, h2]
  have hnormal : ∀ d : Char,
      s ++ "://".data ++ p ++ d :: tail
        = s ++ ':' :: '/' :: '/' :: (p ++ d :: tail) := by
    intro d
    have e1 : "://".data = [':', '/', '/'] := rfl
    rw [e1]
    simp
  have hparse : parse_uri (s ++ "://".data ++ p ++ '?' :: tail)
      = parse_uri (s ++ "://".data ++ p ++ '#' :: tail) := by
    rw [hnormal '?', hnormal '#',
      parse_uri_scheme_path_query s p tail '?' hs hp (by decide),
      parse_uri_scheme_path_query s p tail '#' hs hp (by decide)]
  exact ⟨hparse, fun t => open_congr t hparse⟩

/-- Witness for C10 at a concrete descriptor. -/
theorem c10_witness :
    parse_uri ("file".data ++ "://".data ++ "lib.so".data ++ '?' :: "offset=1".data)
      = parse_uri ("file".data ++ "://".data ++ "lib.so".data ++ '#' :: "offset=1".data) :=
  (c10_fragment_equals_query "file".data "lib.so".data "offset=1".data
    (by decide) (by decide) (by decide)).1

end RocmSolib

namespace RocmSolib

/-! ## C5: the memory scheme and the owning process -/

theorem target_read_memory_length (mem : Nat → Option Nat) :
    ∀ (n addr : Nat) (img : List Nat),
      target_read_memory mem addr n = some img → img.length = n := by
  intro n
  induction n with
  | zero =>
    intro addr img h
    simp [target_read_memory] at h
    simp [← h]
  | succ n ih =>
    intro addr img h
    unfold target_read_memory at h
    cases hm : mem addr with
    | none => rw [hm] at h; exact absurd h (by simp)
    | some b =>
      rw [hm] at h
      cases hr : target_read_memory mem (addr + 1) n with
      | none => rw [hr] at h; exact absurd h (by simp)
      | some rest =>
        rw [hr] at h
        have himg : img = b :: rest := by
          simpa using h.symm
        subst himg
        simp [ih (addr + 1) rest hr]

theorem open_of_parse (t : Target) (uri : List Char) (u : ParsedUri)
    (h : parse_uri uri = some u) :
    rocm_bfd_iovec_open t uri
      = match (do
            let os ← get_offset_size u.params
            dispatchOpen t u os.1 os.2 : Except OpenError OpenResult) with
        | Except.ok r => r
        | Except.error e => OpenResult.openFail e := by
  unfold rocm_bfd_iovec_open
  rw [h]

/-- C5: for every memory-scheme descriptor `memory://L?offset=O&size=Z`
(numeric locator `L`, numeric offset and nonzero numeric size), opening
succeeds only under the owning process whose id equals the locator's value:
under the matching id it yields a snapshot of exactly the `size` bytes a
direct read of that process's memory at `offset` returns, and under any
other id it fails with a process mismatch whatever the target memory holds
— the memory oracle is never consulted. -/
theorem c5_memory_scheme_process_identity (t : Target) (L O Z : List Char)
    (vl vo vz : Nat) (hL : strtoulst L = some vl) (hO : strtoulst O = some vo)
    (hZ : strtoulst Z = some vz) (hz0 : vz ≠ 0) :
    (vl = t.pid →
       ∀ img : List Nat, target_read_memory t.mem vo vz = some img →
         rocm_bfd_iovec_open t
             ("memory".data ++ "://".data ++ L ++ "?offset=".data ++ O
               ++ "&size=".data ++ Z)
             = OpenResult.memoryStream img
         ∧ img.length = vz)
    ∧ (vl ≠ t.pid →
       ∀ mem2 : Nat → Option Nat,
         rocm_bfd_iovec_open ⟨t.pid, t.fileOpen, mem2⟩
             ("memory".data ++ "://".data ++ L ++ "?offset=".data ++ O
               ++ "&size=".data ++ Z)
           = OpenResult.openFail OpenError.processMismatch) := by
  have hdelim := strtoulst_no_delim L vl hL
  have hp1 : '#' ∉ L := hdelim '#' (Or.inr (Or.inl rfl))
  have hp2 : '?' ∉ L := hdelim '?' (Or.inr (Or.inr (Or.inl rfl)))
  have hparse := parse_uri_query_request ("memory".data) L O Z vo vz
    (by decide) hp1 hp2 hO hZ hz0
  have hlow : ("memory".data).map tolowerChar = "memory".data := by decide
  rw [hlow] at hparse
  obtain ⟨pid, fo, mem⟩ := t
  have key : ∀ mem' : Nat → Option Nat,
      rocm_bfd_iovec_open ⟨pid, fo, mem'⟩
          ("memory".data ++ "://".data ++ L ++ "?offset=".data ++ O
            ++ "&size=".data ++ Z)
        = (match (if vl ≠ pid then
                    (pure (OpenResult.openFail OpenError.processMismatch) :
                      Except OpenError OpenResult)
                  else
                    match target_read_memory mem' vo vz with
                    | none => pure (OpenResult.openFail OpenError.memoryReadFailure)
                    | some image => pure (OpenResult.memoryStream image)) with
           | Except.ok r => r
           | Except.error e => OpenResult.openFail e) := by
    intro mem'
    have hdisp : dispatchOpen ⟨pid, fo, mem'⟩
        ⟨"memory".data, L, percent_decode L, [("offset".data, O), ("size".data, Z)]⟩
        vo vz
        = (if vl ≠ pid then
             (pure (OpenResult.openFail OpenError.processMismatch) :
               Except OpenError OpenResult)
           else
             match target_read_memory mem' vo vz with
             | none => pure (OpenResult.openFail OpenError.memoryReadFailure)
             | some image => pure (OpenResult.memoryStream image)) := by
      have htry : try_strtoulst L = Except.ok vl := by simp [try_strtoulst, hL]
      show (do
          let lpid ← try_strtoulst L
          if lpid ≠ pid then
            (pure (OpenResult.openFail OpenError.processMismatch) :
              Except OpenError OpenResult)
          else
            match target_read_memory mem' vo vz with
            | none => pure (OpenResult.openFail OpenError.memoryReadFailure)
            | some image => pure (OpenResult.memoryStream image)) = _
      rw [htry]
      rfl
    rw [open_of_parse ⟨pid, fo, mem'⟩ _ _ hparse.1]
    simp only [hparse.2]
    show (match dispatchOpen ⟨pid, fo, mem'⟩
        ⟨"memory".data, L, percent_decode L, [("offset".data, O), ("size".data, Z)]⟩
        vo vz with
      | Except.ok r => r
      | Except.error e => OpenResult.openFail e) = _
    rw [hdisp]
  constructor
  · intro hpid img himg
    simp only at hpid
    subst hpid
    refine ⟨?_, target_read_memory_length mem vz vo img himg⟩
    rw [key mem, if_neg (fun h => h rfl), himg]
    rfl
  · intro hne mem2
    simp only at hne
    rw [key mem2, if_pos hne]
    rfl

/-- Witness for C5: the spec's example descriptor, a concrete target owning
pid 123 whose memory maps every address `a` to byte `a % 256`, and the same
target under pid 124. -/
theorem c5_witness :
    rocm_bfd_iovec_open ⟨123, fun _ => none, fun a => some (a % 256)⟩
        ("memory://123?offset=0x1000&size=64".data)
      = OpenResult.memoryStream (((List.range 64).map (fun i => (4096 + i) % 256)))
    ∧ rocm_bfd_iovec_open ⟨124, fun _ => none, fun a => some (a % 256)⟩
        ("memory://123?offset=0x1000&size=64".data)
      = OpenResult.openFail OpenError.processMismatch := by
  have huri : ("memory://123?offset=0x1000&size=64".data)
      = "memory".data ++ "://".data ++ "123".data ++ "?offset=".data
          ++ "0x1000".data ++ "&size=".data ++ "64".data := by decide
  rw [huri]
  constructor
  · exact ((c5_memory_scheme_process_identity
      ⟨123, fun _ => none, fun a => some (a % 256)⟩ "123".data "0x1000".data "64".data
      123 4096 64 rfl rfl rfl (by decide)).1 rfl
      (((List.range 64).map (fun i => (4096 + i) % 256))) (by decide)).1
  · exact (c5_memory_scheme_process_identity
      ⟨124, fun _ => none, fun a => some (a % 256)⟩ "123".data "0x1000".data "64".data
      123 4096 64 rfl rfl rfl (by decide)).2 (by decide) (fun a => some (a % 256))

/-! ## C8: integer parsing of query values -/

/-- C8 (with `strtoulst` modelled from the spec): the integer parser accepts
standard numeric literal forms — `0x`-prefixed hexadecimal, decimal,
`0`-prefixed octal — and any value that is not a valid numeric literal makes
the parse fail with a parse error (propagated out of the offset/size
extraction and out of the whole open) rather than yield a number. -/
theorem c8_integer_parsing :
    (∀ v : List Char, strtoulst v = none →
       try_strtoulst v = Except.error OpenError.parseError)
    ∧ (∀ (params : List (List Char × List Char)) (v : List Char),
         lookupParam params ("offset".data) = some v → strtoulst v = none →
         get_offset_size params = Except.error OpenError.parseError)
    ∧ (∀ t : Target, rocm_bfd_iovec_open t ("file://p?offset=zzz".data)
         = OpenResult.openFail OpenError.parseError)
    ∧ strtoulst ("0x1000".data) = some 4096
    ∧ strtoulst ("4096".data) = some 4096
    ∧ strtoulst ("010".data) = some 8
    ∧ strtoulst ("zzz".data) = none := by
  refine ⟨?_, ?_, ?_, by decide, by decide, by decide, by decide⟩
  · intro v h
    simp [try_strtoulst, h]
  · intro params v hl h
    unfold get_offset_size
    rw [hl]
    simp only [try_strtoulst, h]
    rfl
  · intro t
    rfl

/-- Witness for C8 at a non-numeric value. -/
theorem c8_witness :
    try_strtoulst ("zzz".data) = Except.error OpenError.parseError
    ∧ get_offset_size [("offset".data, "zzz".data)]
        = Except.error OpenError.parseError :=
  ⟨c8_integer_parsing.1 ("zzz".data) rfl,
   c8_integer_parsing.2.1 [("offset".data, "zzz".data)] ("zzz".data) rfl rfl⟩

end RocmSolib
